import Mathlib

/-!
# Verification of the Silent-Killer event-pipeline core

A shallow embedding, in Lean 4, of the core of the repository
(`backend/app/core/`): the event store (`store.py`, `sql_store.py`),
the normalizer (`normalizer.py`), the rule engine (`rules.py`),
the ranker (`ranker.py`) and the executor (`executor.py`), together
with theorems settling the specification claims about them.

Modelling conventions, used throughout:

* Python `float` values are modelled as `ℚ` (all arithmetic in the
  sources is on small decimal constants and counts, so rational
  arithmetic is exact where the code is; where Python float division
  by zero would raise `ZeroDivisionError`, the Lean total field
  division yields `0` — noted locally at the one place it can occur).
* Python `datetime` instants are modelled as integers (e.g. epoch
  seconds); `timedelta(minutes=m)` is `m * 60`.  ISO-8601 rendering
  and parsing (`datetime.isoformat` / `datetime.fromisoformat`) are
  modelled by oracle functions threaded through a context structure,
  since no claim depends on the concrete text of a rendered instant.
  The SQLite `timestamp` TEXT column stores `isoformat()` output,
  whose lexicographic order agrees with the chronological order of
  the instants it encodes, so the column is modelled directly by the
  integer instant, ordered as the TEXT column orders.
* Python dicts with string keys are association lists whose key
  order is insertion order, exactly as in CPython: updating an
  existing key keeps its position, a new key is appended, `pop`
  removes the key.  Well-formed Python dicts never hold a duplicate
  key, and every operation below preserves that.
* A fallible piece of Python (code that can raise) is embedded in
  `Except`; code that cannot raise is embedded as a plain function.
-/

namespace SilentKiller

/-! ## Python values (used by the normalizer model)

`PyVal` covers the value shapes that flow through `normalize_event`:
`None`, strings, ints, bools, `datetime` instants, dicts with string
keys, and lists.  (Non-string dict keys never influence the functions
modelled here: the ingestion layer produces JSON objects, whose keys
are strings.) -/

inductive PyVal : Type where
  | none : PyVal
  | str (s : String) : PyVal
  | int (n : Int) : PyVal
  | bool (b : Bool) : PyVal
  | dt (t : Int) : PyVal
  | dict (entries : List (String × PyVal)) : PyVal
  | list (xs : List PyVal) : PyVal

/-- Python truthiness for the modelled values: `None`, `''`, `0`,
`False`, `{}` and `[]` are falsy, everything else (including every
`datetime`) is truthy. -/
def pyTruthy : PyVal → Bool
  | .none => false
  | .str s => !(s = "")
  | .int n => !(n = 0)
  | .bool b => b
  | .dt _ => true
  | .dict d => !d.isEmpty
  | .list l => !l.isEmpty

/-- Python `str(v)` for the modelled values (deterministic rendering;
no claim depends on the exact text, only on it being a function of the
value). -/
def pyStr : PyVal → String
  | .none => "None"
  | .str s => s
  | .int n => toString n
  | .bool b => if b then "True" else "False"
  | .dt t => toString t
  | .dict _ => "{...}"
  | .list _ => "[...]"

/-- Dict lookup (first — i.e. only — binding of the key). -/
def dlookup (md : List (String × PyVal)) (k : String) : Option PyVal :=
  match md with
  | [] => Option.none
  | (k', v) :: rest => if k' = k then some v else dlookup rest k

/-- `d.get(k, default)`. -/
def dget (md : List (String × PyVal)) (k : String) (dflt : PyVal) : PyVal :=
  (dlookup md k).getD dflt

/-- `d[k] = v`: update in place if the key exists, else append —
CPython dict insertion-order semantics. -/
def dictSet (md : List (String × PyVal)) (k : String) (v : PyVal) :
    List (String × PyVal) :=
  match md with
  | [] => [(k, v)]
  | (k', v') :: rest =>
    if k' = k then (k, v) :: rest else (k', v') :: dictSet rest k v

/-- `d.pop(k, None)`: remove the binding of `k` (a well-formed dict
has at most one). -/
def dictPop (md : List (String × PyVal)) (k : String) :
    List (String × PyVal) :=
  md.filter (fun p => !(p.1 = k))

/-! ## Normalizer (`backend/app/core/normalizer.py`) -/

/-- Ambient context for `normalize_event`: the ISO-8601 parser
(`datetime.fromisoformat`, `none` when parsing raises `ValueError`),
the digest function `_hash_text(text, key)` (HMAC-SHA256 when a key is
supplied, plain SHA-256 otherwise — modelled as an oracle because no
claim depends on concrete digests), the configured PII salt
(`SILENT_KILLER_PII_SALT`, `none` when the variable is unset) and the
current instant `datetime.utcnow()`. -/
structure NormCtx : Type where
  parseIso : String → Option Int
  hashText : String → Option String → String
  salt : Option String
  now : Int

/-- `PII_KEYS` from `normalizer.py`. -/
def PII_KEYS : List String := ["email", "user_email", "username", "name", "full_name"]

/-- `MAX_TITLE_LEN` from `normalizer.py`. -/
def MAX_TITLE_LEN : Nat := 100

/-- The canonical event produced by `normalize_event`: keys `user_id`,
`event_id`, `timestamp` (a datetime), `type`, `meta`. -/
structure NormEvent : Type where
  user_id : PyVal
  event_id : PyVal
  timestamp : Int
  type : PyVal
  meta : List (String × PyVal)

/-- Python `dict(x)`: a dict maps to itself; a list succeeds only when
every element is a two-element list whose first component is a string
(a key/value pair); every other value raises `TypeError`.  (The falsy
cases never reach this conversion in `normalize_event` because of the
`or {}` guard.) -/
def dictOfVal : PyVal → Except Unit (List (String × PyVal))
  | .dict d => .ok d
  | .list xs =>
    xs.foldr
      (fun x acc => do
        let r ← acc
        match x with
        | .list [.str k, v] => .ok ((k, v) :: r)
        | _ => .error ())
      (.ok [])
  | _ => .error ()

/-- One iteration of the PII loop of `normalize_event`:
`if k in meta and meta.get(k): meta[k + '_hash'] = _hash_text(str(meta[k]), salt); meta.pop(k, None)`.
(The `try/except` around `_hash_text` never fires for string input, so
it is not modelled.) -/
def piiStep (ctx : NormCtx) (md : List (String × PyVal)) (k : String) :
    List (String × PyVal) :=
  match dlookup md k with
  | some v =>
    if pyTruthy v then
      dictPop (dictSet md (k ++ "_hash") (.str (ctx.hashText (pyStr v) ctx.salt))) k
    else md
  | Option.none => md

/-- The `for k in PII_KEYS` loop. -/
def piiFold (ctx : NormCtx) (ks : List String) (md : List (String × PyVal)) :
    List (String × PyVal) :=
  match ks with
  | [] => md
  | k :: rest => piiFold ctx rest (piiStep ctx md k)

/-- The `window_title` data-minimization step (`HASH_WINDOW_TITLE` is
the constant `True` in the source).  `title = meta.get('window_title') or ''`
is truthy exactly when the stored value is, and is then that value, so
the branch condition is stated directly on the value.  When `title` is
truthy, `title[:MAX_TITLE_LEN]` is sliced and the slice is
UTF-8-encoded by `_hash_text` — for a truthy non-string value one of
those two operations raises (`TypeError`/`AttributeError`); when
`title` is falsy it is `''`, and `meta['window_title'] = title[:100]`
stores the empty string. -/
def windowTitleStep (ctx : NormCtx) (md : List (String × PyVal)) :
    Except Unit (List (String × PyVal)) :=
  match dlookup md "window_title" with
  | Option.none => .ok md
  | some v =>
    if pyTruthy v = true then
      match v with
      | .str s =>
        .ok (dictPop
          (dictSet md "window_title_hash"
            (.str (ctx.hashText (s.take MAX_TITLE_LEN) Option.none)))
          "window_title")
      | _ => .error ()
    else .ok (dictSet md "window_title" (.str ""))

/-- The final truncation loop: any string value longer than 1000
characters is cut to its first 1000 characters. -/
def truncVal : PyVal → PyVal
  | .str s => if 1000 < s.length then .str (s.take 1000) else .str s
  | v => v

/-- The meta pipeline of `normalize_event`:
`meta = dict(raw.get('meta', {}) or {})`, the PII loop, the
`window_title` step, and the long-string truncation.  The only
operations that can raise are the `dict(...)` conversion and the
`window_title` slice/encode. -/
def normMeta (ctx : NormCtx) (metaRaw : PyVal) :
    Except Unit (List (String × PyVal)) :=
  let metaSrc := if pyTruthy metaRaw then metaRaw else .dict []
  match dictOfVal metaSrc with
  | .error e => .error e
  | .ok md0 =>
    match windowTitleStep ctx (piiFold ctx PII_KEYS md0) with
    | .error e => .error e
    | .ok md2 => .ok (md2.map (fun p => (p.1, truncVal p.2)))

/-- The timestamp repair of `normalize_event`: a string is parsed
(fallback `utcnow`), a datetime is kept, anything else (including a
missing key, i.e. `None`) becomes `utcnow`. -/
def normTimestamp (ctx : NormCtx) (ts : PyVal) : Int :=
  match ts with
  | .str s => (ctx.parseIso s).getD ctx.now
  | .dt t => t
  | _ => ctx.now

/-- `normalize_event(raw)` from `normalizer.py`: timestamp repair plus
the meta pipeline, the remaining fields copied from `raw.get(...)`. -/
def normalize_event (ctx : NormCtx) (raw : List (String × PyVal)) :
    Except Unit NormEvent :=
  match normMeta ctx (dget raw "meta" (.dict [])) with
  | .error e => .error e
  | .ok md3 =>
    .ok { user_id := dget raw "user_id" .none
          event_id := dget raw "event_id" .none
          timestamp := normTimestamp ctx (dget raw "timestamp" .none)
          type := dget raw "type" .none
          meta := md3 }

/-! ## Event store (`backend/app/core/store.py`) -/

/-- The `timestamp` value of an event held by the in-memory store:
a parsed `datetime`, a string that `datetime.fromisoformat` failed to
parse in `add_event` (left "as-is" by the source), or absent/`None`. -/
inductive PTs : Type where
  | dt (t : Int) : PTs
  | sv (s : String) : PTs
  | missing : PTs
deriving DecidableEq

/-- An event as held in a user's in-memory partition: `add_event`
guarantees a (truthy) `event_id`. -/
structure MEvent : Type where
  event_id : String
  type : Option String
  timestamp : PTs
deriving DecidableEq

/-- An incoming event for `InMemoryStore.add_event`: `event_id` may be
absent (or falsy — the empty string stands for every falsy value). -/
structure MRaw : Type where
  event_id : Option String
  type : Option String
  timestamp : PTs
deriving DecidableEq

/-- The in-memory store state: `user_id → list of events`
(`defaultdict(list)`). -/
abbrev InMemoryStore : Type := String → List MEvent

def InMemoryStore.empty : InMemoryStore := fun _ => []

/-- `InMemoryStore.add_event(user_id, event)`: parse a string
timestamp (leaving it as-is on failure), fill a missing/falsy
`event_id` with a fresh uuid (`fresh`), then append — unless an event
with the same `event_id` is already stored for this user, in which
case the call is a silent no-op. -/
def InMemoryStore.add_event (parse : String → Option Int) (st : InMemoryStore)
    (user_id : String) (e : MRaw) (fresh : String) : InMemoryStore :=
  let ts : PTs :=
    match e.timestamp with
    | .sv s => match parse s with
      | some t => .dt t
      | Option.none => .sv s
    | t => t
  let eid : String :=
    match e.event_id with
    | some s => if s = "" then fresh else s
    | Option.none => fresh
  if (st user_id).any (fun x => x.event_id = eid) then st
  else fun u => if u = user_id then st user_id ++ [⟨eid, e.type, ts⟩] else st u

/-- `InMemoryStore.get_events(user_id)` (no `since`): the user's
partition, in insertion order. -/
def InMemoryStore.get_events (st : InMemoryStore) (user_id : String) :
    List MEvent :=
  st user_id

/-- The `since` filter of `InMemoryStore.get_events`:
`[e for e in events if e.get('timestamp') and e['timestamp'] >= since]`.
A falsy timestamp (absent, `None`, or the empty string) is skipped by
the truthiness test; a datetime is compared against `since`; a truthy
unparsed *string* timestamp makes Python's `str >= datetime` comparison
raise `TypeError`, aborting the whole call — modelled as `.error`. -/
def tsFilter (since : Int) : List MEvent → Except Unit (List MEvent)
  | [] => .ok []
  | e :: rest =>
    match e.timestamp with
    | .dt t =>
      match tsFilter since rest with
      | .ok r => .ok (if since ≤ t then e :: r else r)
      | .error err => .error err
    | .sv s => if s = "" then tsFilter since rest else .error ()
    | .missing => tsFilter since rest

/-- `InMemoryStore.get_events(user_id, since)` with `since` supplied. -/
def InMemoryStore.get_events_since (st : InMemoryStore) (user_id : String)
    (since : Int) : Except Unit (List MEvent) :=
  tsFilter since (st user_id)

/-! ## Event store, SQLite backend (`backend/app/core/sql_store.py`)

The `events` table: `event_id TEXT PRIMARY KEY, user_id TEXT NOT NULL,
timestamp TEXT NOT NULL, type TEXT, meta TEXT`.  As SQLite allows `NULL`
(and several `NULL`s) in a non-`INTEGER` primary-key column, a `NULL`
`event_id` never conflicts.  The `timestamp` column holds `isoformat()`
text whose lexicographic order agrees with the order of the instants it
encodes, so it is modelled by the integer instant (see the header). -/

structure SqlRow : Type where
  event_id : Option String
  user_id : String
  ts : Int
  type : Option String
deriving DecidableEq

abbrev SqliteStore : Type := List SqlRow

/-- `SqliteStore.add_event`: a single `INSERT`; an
`sqlite3.IntegrityError` (duplicate non-`NULL` `event_id`, or a `NULL`
`timestamp` violating `NOT NULL`) is caught and silently ignored. -/
def SqliteStore.add_event (db : SqliteStore) (user_id : String)
    (eid : Option String) (ts : Option Int) (ty : Option String) : SqliteStore :=
  match ts with
  | Option.none => db
  | some t =>
    match eid with
    | some i =>
      if db.any (fun r => r.event_id = some i) then db
      else db ++ [⟨some i, user_id, t, ty⟩]
    | Option.none => db ++ [⟨Option.none, user_id, t, ty⟩]

/-- Ascending order on rows by the `timestamp` column. -/
def rowLE (a b : SqlRow) : Prop := a.ts ≤ b.ts

instance : DecidableRel rowLE := fun a b => inferInstanceAs (Decidable (a.ts ≤ b.ts))

instance : IsTotal SqlRow rowLE := ⟨fun a b => le_total a.ts b.ts⟩

instance : IsTrans SqlRow rowLE := ⟨fun _ _ _ h1 h2 => le_trans h1 h2⟩

/-- `SqliteStore.get_events(user_id, since?)`:
`SELECT … WHERE user_id = ? [AND timestamp >= ?] ORDER BY timestamp`.
The model realizes `ORDER BY` with an insertion sort (the claims need
sortedness and the multiset of rows, not SQLite's internal tie order). -/
def SqliteStore.get_events (db : SqliteStore) (user_id : String)
    (since : Option Int) : List SqlRow :=
  let rows := db.filter (fun r =>
    r.user_id = user_id &&
      match since with
      | some s => decide (s ≤ r.ts)
      | Option.none => true)
  List.insertionSort rowLE rows

/-! ## Rule engine (`backend/app/core/rules.py`) -/

/-- Ambient context for the rule engine and the ranker: the ISO-8601
parser and renderer oracles and `datetime.utcnow()` (each rule invokes
`utcnow` once; a run is modelled at one instant). -/
structure RulesCtx : Type where
  parseIso : String → Option Int
  isofmt : Int → String
  now : Int

/-- An incoming event for `_ensure_sorted_events`: its `timestamp` may
be a datetime, a string, or anything else (`PTs.missing` stands for
`None` and every other non-datetime non-string shape). -/
structure REvent : Type where
  event_id : Option String
  type : Option String
  timestamp : PTs
deriving DecidableEq

/-- An event after `_ensure_sorted_events`: the timestamp is a
datetime. -/
structure SEvent : Type where
  event_id : Option String
  type : Option String
  timestamp : Int
deriving DecidableEq

/-- Ascending order on events by timestamp (the `evs.sort(key=...)`
key). -/
def sevLE (a b : SEvent) : Prop := a.timestamp ≤ b.timestamp

instance : DecidableRel sevLE := fun a b => inferInstanceAs (Decidable (a.timestamp ≤ b.timestamp))

instance : IsTotal SEvent sevLE := ⟨fun a b => le_total a.timestamp b.timestamp⟩

instance : IsTrans SEvent sevLE := ⟨fun _ _ _ h1 h2 => le_trans h1 h2⟩

/-- `_ensure_sorted_events`: normalize every timestamp to a datetime
(string → parse after replacing a trailing `Z` with `+00:00`, fallback
`utcnow`; non-datetime non-string → `utcnow`), then sort by timestamp.
`list.sort` is stable; so is `List.insertionSort`. -/
def _ensure_sorted_events (ctx : RulesCtx) (events : List REvent) : List SEvent :=
  let evs := events.map (fun e =>
    let ts : Int :=
      match e.timestamp with
      | .dt t => t
      | .sv s => ((ctx.parseIso (s.replace "Z" "+00:00")).getD ctx.now)
      | .missing => ctx.now
    ⟨e.event_id, e.type, ts⟩)
  List.insertionSort sevLE evs

/-- A candidate suggestion as emitted by the rules (`id` is the
generated uuid). -/
structure Suggestion : Type where
  id : String
  title : String
  description : String
  severity : String
  confidence : ℚ
  evidence : List String
  suggested_action : String
deriving DecidableEq

/-- `_take_evidence(events, max_items=5)`: compact provenance strings
`"{ts} | {type} | {event_id}"` for the first five events. -/
def _take_evidence (ctx : RulesCtx) (events : List SEvent) : List String :=
  (events.take 5).map (fun e =>
    ctx.isofmt e.timestamp ++ " | " ++ e.type.getD "" ++ " | " ++ e.event_id.getD "")

/-- The events counted by `high_context_switch_rule`: `window_focus` or
`app_switch` typed events whose (always truthy) datetime lies at or
after `now - window_minutes`. -/
def contextSwitches (ctx : RulesCtx) (window_minutes : Nat) (evs : List SEvent) :
    List SEvent :=
  evs.filter (fun e =>
    (e.type = some "window_focus" || e.type = some "app_switch") &&
      decide (ctx.now - window_minutes * 60 ≤ e.timestamp))

/-- `high_context_switch_rule(events, window_minutes=10, threshold=12)`.
`uuid` is the generated suggestion id. -/
def high_context_switch_rule (ctx : RulesCtx) (uuid : String) (events : List REvent)
    (window_minutes : Nat := 10) (threshold : Nat := 12) : List Suggestion :=
  let evs := _ensure_sorted_events ctx events
  let switches := contextSwitches ctx window_minutes evs
  let count := switches.length
  if threshold < count then
    [{ id := uuid
       title := "High context switching"
       description := "You switched focus " ++ toString count ++ " times in the last "
         ++ toString window_minutes ++ " minutes."
       severity := if count < threshold * 2 then "medium" else "high"
       confidence := min (99/100) ((count : ℚ) / max 1 ((threshold : ℚ) * 3/2))
       evidence := _take_evidence ctx switches.reverse
       suggested_action := "Try batching similar tasks or schedule a focused time block." }]
  else []

/-- `types = [e.get('type') for e in evs if e.get('type')]`: the truthy
event types, in order. -/
def typesOf (evs : List SEvent) : List String :=
  evs.filterMap (fun e =>
    match e.type with
    | some t => if t = "" then Option.none else some t
    | Option.none => Option.none)

/-- All length-`L` windows of the type sequence (the `for i in
range(0, len(types) - seq_len + 1)` sliding window). -/
def windows (ts : List String) (L : Nat) : List (List String) :=
  (List.range (ts.length + 1 - L)).map (fun i => (ts.drop i).take L)

/-- The distinct windows in order of first occurrence (= the iteration
order of the Python `counts` dict). -/
def uniqueInOrder : List (List String) → List (List String)
  | [] => []
  | a :: l => a :: (uniqueInOrder l).filter (fun x => !(x = a))

/-- The positions at which window `w` occurs (the `positions` dict). -/
def windowPositions (ts : List String) (L : Nat) (w : List String) : List Nat :=
  (List.range (ts.length + 1 - L)).filter (fun i => (ts.drop i).take L = w)

/-- `repeated_sequence_rule(events, min_repeat=3, seq_len=3)`:
return `[]` when there are fewer than `seq_len * min_repeat` typed
events; otherwise emit one suggestion for `repeats[0]` — the first
window, in order of first occurrence, whose (overlapping) occurrence
count reaches `min_repeat` — or `[]` when there is none. -/
def repeated_sequence_rule (ctx : RulesCtx) (uuid : String) (events : List REvent)
    (min_repeat : Nat := 3) (seq_len : Nat := 3) : List Suggestion :=
  let evs := _ensure_sorted_events ctx events
  let ts := typesOf evs
  if ts.length < seq_len * min_repeat then []
  else
    let ws := windows ts seq_len
    match (uniqueInOrder ws).find? (fun w => decide (min_repeat ≤ ws.count w)) with
    | some w =>
      let c := ws.count w
      let evidence_events :=
        ((windowPositions ts seq_len w).take min_repeat).filterMap (fun i => evs.get? i)
      [{ id := uuid
         title := "Repeated manual sequence"
         description := "The sequence " ++ String.intercalate ", " w ++ " repeated "
           ++ toString c ++ " times - you could automate this workflow."
         severity := "low"
         confidence := min (9/10) ((c : ℚ) / (min_repeat : ℚ))
         evidence := _take_evidence ctx evidence_events
         suggested_action := "Record a macro or create a script to automate this sequence." }]
    | Option.none => []

/-- `severity_map.get(s.get('severity', 'low'), 1)` from
`run_rules_and_score` (a `Suggestion` always carries a severity, so
only the unknown-key default matters). -/
def sevWeight (s : String) : ℚ :=
  if s = "low" then 1 else if s = "medium" then 2 else if s = "high" then 3 else 1

/-- `max(0.0, min(1.0, conf))`. -/
def clamp01 (q : ℚ) : ℚ := max 0 (min 1 q)

/-- A rule as consumed by `run_rules_and_score`: a function of the
sorted events that either returns suggestions or raises. -/
abbrev Rule : Type := List SEvent → Except String (List Suggestion)

/-- The suggestions collected by the `for rule in rules` loop: each
rule's output in order, a raising rule silently skipped. -/
def collectOk (rules : List Rule) (evs : List SEvent) : List Suggestion :=
  (rules.map (fun r =>
    match r evs with
    | .ok res => res
    | .error _ => [])).flatten

/-- Descending order on scored suggestions (the
`sort(key=score, reverse=True)` order). -/
def sugGE (a b : Suggestion × ℚ) : Prop := b.2 ≤ a.2

instance : DecidableRel sugGE := fun a b => inferInstanceAs (Decidable (b.2 ≤ a.2))

instance : IsTotal (Suggestion × ℚ) sugGE := ⟨fun a b => le_total b.2 a.2⟩

instance : IsTrans (Suggestion × ℚ) sugGE := ⟨fun _ _ _ h1 h2 => le_trans h2 h1⟩

/-- `run_rules_and_score(events, rules)`: run every rule over the
sorted events (skipping raisers), score every collected suggestion as
`severity_weight*0.6 + clamped_confidence*0.4`, and sort descending by
score.  Python's stable in-place sort is modelled by the (stable)
insertion sort. -/
def run_rules_and_score (ctx : RulesCtx) (events : List REvent) (rules : List Rule) :
    List (Suggestion × ℚ) :=
  let evs := _ensure_sorted_events ctx events
  let suggestions := collectOk rules evs
  let scored := suggestions.map (fun s =>
    (s, sevWeight s.severity * (3/5) + clamp01 s.confidence * (2/5)))
  List.insertionSort sugGE scored

/-! ## Executor (`backend/app/core/executor.py`) -/

/-- The fields `execute_action` reads from the suggestion dict.
`confidence` is `float(suggestion.get('confidence', 0.0))` — a missing
confidence is the same as `0.0`, so it is modelled directly as the
number.  The `Option String` fields are `None` when absent. -/
structure ExecSuggestion : Type where
  confidence : ℚ
  id : Option String
  title : Option String
  suggestion_title : Option String
  severity : Option String
  suggestion_severity : Option String
  suggested_action : Option String
deriving DecidableEq

/-- `a or b` on optional strings (`None` and `''` are falsy). -/
def pyOrStr (a b : Option String) : Option String :=
  match a with
  | some s => if s = "" then b else some s
  | Option.none => b

/-- The action record built by `execute_action`. -/
structure ExecActionRecord : Type where
  user_id : String
  suggestion_id : Option String
  suggestion_title : Option String
  suggestion_severity : Option String
  action : String
  details : Option String
  timestamp : Int
deriving DecidableEq

inductive ExecStatus : Type where
  | ok : ExecStatus
  | error : ExecStatus
deriving DecidableEq

/-- The dict returned by `execute_action` (`record`/`reason` are absent
from the error result — modelled by `Option`). -/
structure ExecResult : Type where
  status : ExecStatus
  executed : Bool
  reason : Option String
  record : Option ExecActionRecord
deriving DecidableEq

/-- The human-readable below-threshold reason
(`f"confidence {c} below auto-exec threshold {t}"`; the interpolated
numerals are rendered with `toString` in place of Python float repr). -/
def belowThresholdReason (c t : ℚ) : String :=
  "confidence " ++ toString c ++ " below auto-exec threshold " ++ toString t

/-- The manual-mode reason string of the source. -/
def manualModeReason : String := "manual mode: requires user approval"

/-- The default `AUTO_EXECUTE_CONFIDENCE` (env var unset → `0.9`). -/
def AUTO_EXECUTE_CONFIDENCE : ℚ := 9/10

/-- `execute_action(user_id, suggestion, mode)` from `executor.py`.
`thresh` is `AUTO_EXECUTE_CONFIDENCE`, `now` is `datetime.utcnow()`,
and `persistOk` tells whether `provider.add_action` succeeds (`false`
= it raises).  Returns the result dict together with the list of
records actually persisted by the call (`[]` or the one record). -/
def execute_action (thresh : ℚ) (now : Int) (persistOk : Bool)
    (user_id : String) (s : ExecSuggestion) (mode : String) :
    ExecResult × List ExecActionRecord :=
  let executed : Bool := mode = "auto" && decide (thresh ≤ s.confidence)
  let reason : Option String :=
    if mode = "auto" then
      if thresh ≤ s.confidence then Option.none
      else some (belowThresholdReason s.confidence thresh)
    else some manualModeReason
  let record : ExecActionRecord :=
    { user_id := user_id
      suggestion_id := s.id
      suggestion_title := pyOrStr s.title s.suggestion_title
      suggestion_severity := pyOrStr s.severity s.suggestion_severity
      action := if executed then "auto_execute" else "suggested"
      details := reason
      timestamp := now }
  if persistOk then
    ({ status := .ok, executed := executed, reason := reason, record := some record },
      [record])
  else
    ({ status := .error, executed := executed, reason := some "persistence_failed",
       record := Option.none },
      [])

/-! ## Ranker (`backend/app/core/ranker.py`) -/

/-- A suggestion dict as consumed by `rank_suggestions` (`Option`
fields are `None`/absent when `none`; `evidence` is
`s.get('evidence') or []`, under which a falsy value and `[]`
coincide). -/
structure RSugg : Type where
  id : Option String
  title : Option String
  severity : Option String
  evidence : List String
deriving DecidableEq

/-- An action-history record as read by
`_user_accept_rate_for_suggestion`. -/
structure ActionRecord : Type where
  suggestion_id : Option String
  action : Option String
deriving DecidableEq

/-- The persisted `Weights` consumed by the ranker
(`load_weights()` output; a missing file or key yields the defaults
`0.0` and `{}`). -/
structure Weights : Type where
  global_accept_rate : ℚ
  per_title : List (String × ℚ)

/-- `_parse_evidence_time`: the text before the first `|`, stripped,
through `fromisoformat`; `None` when parsing raises. -/
def _parse_evidence_time (ctx : RulesCtx) (evidence_item : String) : Option Int :=
  ctx.parseIso (((evidence_item.takeWhile (fun c => c ≠ '|'))).trim)

/-- `_user_accept_rate_for_suggestion(user_id, suggestion_id)` over the
combined action history (persistent store followed by the in-memory
`action_store` — both are per-user partitions, so the model takes the
already-combined list for the user).  `None == None` holds in Python,
hence the plain `Option` equality on ids. -/
def _user_accept_rate_for_suggestion (actions : List ActionRecord)
    (suggestion_id : Option String) : ℚ :=
  if actions.isEmpty then 0
  else
    let same := actions.filter (fun a => a.suggestion_id = suggestion_id)
    if same.isEmpty then 0
    else (same.countP (fun a => a.action = some "accept") : ℚ) / (same.length : ℚ)

/-- The recency feature: `1/(1 + seconds_since_latest_evidence/60)` over
the parseable evidence timestamps, `0.0` when there is none.  (For
evidence lying exactly 60 seconds in the future Python would raise
`ZeroDivisionError`; the total Lean division returns `0` there.) -/
def recencyScore (ctx : RulesCtx) (evidence : List String) : ℚ :=
  match evidence.filterMap (_parse_evidence_time ctx) with
  | [] => 0
  | t :: ts =>
    let latest := ts.foldl max t
    1 / (1 + ((ctx.now - latest : Int) : ℚ) / 60)

/-- The learned per-title rate used by the multiplicative adjustment:
`per_title_weights.get(title) if per_title_weights and title else None`.
(An empty `per_title` map makes every lookup `none`, so the truthiness
test on the map collapses into the lookup.) -/
def learnedRate (w : Weights) (title : Option String) : Option ℚ :=
  match title with
  | some t => if t = "" then Option.none else w.per_title.lookup t
  | Option.none => Option.none

/-- The final `_rank_score` of one suggestion: the linear blend
`0.3*severity + 0.4*recency + 0.15*evidence + 0.15*accept_rate` times
the learned multiplicative adjustment. -/
def rankScore (ctx : RulesCtx) (w : Weights) (actions : List ActionRecord)
    (s : RSugg) : ℚ :=
  let sev_val := sevWeight ((s.severity).getD "low")
  let recency := recencyScore ctx s.evidence
  let evidence_score := min 1 ((s.evidence.length : ℚ) / 5)
  let accept_rate := _user_accept_rate_for_suggestion actions s.id
  let base := sev_val * (3/10) + recency * (2/5) + evidence_score * (3/20)
    + accept_rate * (3/20)
  match learnedRate w s.title with
  | some r => base * (1 + r * (1/2))
  | Option.none => base * (1 + w.global_accept_rate * (1/5))

/-- Descending order on ranked suggestions. -/
def rnkGE (a b : RSugg × ℚ) : Prop := b.2 ≤ a.2

instance : DecidableRel rnkGE := fun a b => inferInstanceAs (Decidable (b.2 ≤ a.2))

instance : IsTotal (RSugg × ℚ) rnkGE := ⟨fun a b => le_total b.2 a.2⟩

instance : IsTrans (RSugg × ℚ) rnkGE := ⟨fun _ _ _ h1 h2 => le_trans h2 h1⟩

/-- `rank_suggestions(suggestions, user_id)`: score every suggestion
with `rankScore` (the `_rank_score` the source writes into the dict —
kept alongside in the pair) and sort descending, stably, by it.
`getActions` is the per-user action history (persistent store plus
in-memory `action_store`). -/
def rank_suggestions (ctx : RulesCtx) (w : Weights)
    (getActions : String → List ActionRecord) (suggestions : List RSugg)
    (user_id : String) : List (RSugg × ℚ) :=
  let scored := suggestions.map (fun s => (s, rankScore ctx w (getActions user_id) s))
  List.insertionSort rnkGE scored

/-! ## Claim C2 — executor gate -/

/-- **C2.** `execute_action(user_id, suggestion, mode)` returns
`executed=true` and persists an `auto_execute` action record exactly
when `mode == 'auto'` and the suggestion's confidence is at least the
auto-execute threshold; in every other case it returns
`executed=false` and persists a `suggested` record with a
human-readable reason (below-threshold confidence, or manual mode
requiring approval); a persistence failure yields an error result
(status `error`, reason `persistence_failed`, nothing persisted)
rather than an exception. -/
theorem C2_executor_gate (thresh : ℚ) (now : Int) (persistOk : Bool)
    (uid : String) (s : ExecSuggestion) (mode : String) :
    let res := (execute_action thresh now persistOk uid s mode).1
    let recs := (execute_action thresh now persistOk uid s mode).2
    (res.executed = true ↔ (mode = "auto" ∧ thresh ≤ s.confidence)) ∧
    (persistOk = true → res.status = .ok ∧
      recs.map (fun r => r.action)
        = [if mode = "auto" ∧ thresh ≤ s.confidence then "auto_execute" else "suggested"] ∧
      res.record = recs.head?) ∧
    (persistOk = true → mode = "auto" → thresh ≤ s.confidence → res.reason = Option.none) ∧
    (persistOk = true → mode = "auto" → s.confidence < thresh →
      res.reason = some (belowThresholdReason s.confidence thresh)) ∧
    (persistOk = true → mode ≠ "auto" → res.reason = some manualModeReason) ∧
    (persistOk = false → res.status = .error ∧
      res.reason = some "persistence_failed" ∧ recs = [] ∧ res.record = Option.none) := by
  by_cases hm : mode = "auto" <;> by_cases hc : thresh ≤ s.confidence <;>
    cases persistOk <;>
      simp [execute_action, hm, hc, not_le.mpr, lt_iff_not_ge]

/-- Witness for C2 at the spec's own probes: confidence `0.95` in
`auto` mode executes and records `auto_execute`; confidence `0.1`
records `suggested`; a persistence failure yields the error result. -/
theorem C2_executor_gate_witness :
    ((execute_action (9/10) 0 true "u1" ⟨95/100, some "s1", some "Auto Action",
        Option.none, Option.none, Option.none, some "do_something"⟩ "auto").1.executed = true)
    ∧ ((execute_action (9/10) 0 true "u2" ⟨1/10, some "s2", Option.none, Option.none,
        Option.none, Option.none, Option.none⟩ "auto").2.map (fun r => r.action) = ["suggested"])
    ∧ ((execute_action (9/10) 0 false "u3" ⟨95/100, Option.none, Option.none, Option.none,
        Option.none, Option.none, Option.none⟩ "auto").1.status = .error) := by
  refine ⟨?_, ?_, ?_⟩
  · exact (C2_executor_gate (9/10) 0 true "u1" ⟨95/100, some "s1", some "Auto Action",
      Option.none, Option.none, Option.none, some "do_something"⟩ "auto").1.mpr
      ⟨rfl, by norm_num⟩
  · have h := ((C2_executor_gate (9/10) 0 true "u2" ⟨1/10, some "s2", Option.none,
      Option.none, Option.none, Option.none, Option.none⟩ "auto").2.1 rfl).2.1
    rw [if_neg (by rintro ⟨_, hle⟩; norm_num at hle)] at h
    exact h
  · exact ((C2_executor_gate (9/10) 0 false "u3" ⟨95/100, Option.none, Option.none,
      Option.none, Option.none, Option.none, Option.none⟩ "auto").2.2.2.2.2 rfl).1

/-! ## Claim C1 — idempotent ingestion -/

/-- A sequence of `InMemoryStore.add_event` calls
(`user_id`, event, fresh uuid). -/
def InMemoryStore.addAll (parse : String → Option Int)
    (ops : List (String × MRaw × String)) (st : InMemoryStore) : InMemoryStore :=
  match ops with
  | [] => st
  | (u, e, f) :: rest => InMemoryStore.addAll parse rest (InMemoryStore.add_event parse st u e f)

/-- A sequence of `SqliteStore.add_event` calls. -/
def SqliteStore.addAll (ops : List (String × Option String × Option Int × Option String))
    (db : SqliteStore) : SqliteStore :=
  match ops with
  | [] => db
  | (u, eid, ts, ty) :: rest => SqliteStore.addAll rest (SqliteStore.add_event db u eid ts ty)

/-- `Nodup` of mapped ids is preserved by appending an event whose id
is new. -/
theorem nodup_map_append_single {l : List MEvent} {x : MEvent}
    (h : (l.map MEvent.event_id).Nodup) (hx : ∀ y ∈ l, ¬ y.event_id = x.event_id) :
    ((l ++ [x]).map MEvent.event_id).Nodup := by
  simp only [List.map_append, List.map_cons, List.map_nil]
  rw [List.nodup_append]
  refine ⟨h, List.nodup_singleton _, ?_⟩
  intro a ha hb
  simp only [List.mem_singleton] at hb
  obtain ⟨y, hy, hye⟩ := List.mem_map.mp ha
  exact hx y hy (by rw [hye, hb])

/-- One in-memory `add_event` call preserves per-user uniqueness of
`event_id`. -/
theorem mem_add_event_nodup (parse : String → Option Int) (st : InMemoryStore)
    (u : String) (e : MRaw) (fresh : String) (v : String)
    (h : ((st v).map MEvent.event_id).Nodup) :
    (((InMemoryStore.add_event parse st u e fresh) v).map MEvent.event_id).Nodup := by
  unfold InMemoryStore.add_event
  split
  · exact h
  · next hany =>
    rcases eq_or_ne v u with hv | hv
    · subst hv
      simp only [if_true]
      refine nodup_map_append_single h ?_
      intro y hy hye
      exact hany (List.any_eq_true.mpr ⟨y, hy, by simp [hye]⟩)
    · simp only []
      rw [if_neg hv]
      exact h

/-- One SQLite `add_event` call preserves table-wide uniqueness of the
non-`NULL` `event_id`s (the `PRIMARY KEY` invariant). -/
theorem sql_add_event_nodup (db : SqliteStore) (u : String) (eid : Option String)
    (ts : Option Int) (ty : Option String)
    (h : (db.filterMap SqlRow.event_id).Nodup) :
    (((SqliteStore.add_event db u eid ts ty)).filterMap SqlRow.event_id).Nodup := by
  unfold SqliteStore.add_event
  split
  · exact h
  · split
    · split
      · exact h
      · next hany =>
        simp only [List.filterMap_append, List.filterMap_cons, List.filterMap_nil]
        rw [List.nodup_append]
        refine ⟨h, by simp, ?_⟩
        intro a ha hb
        simp only [List.append_nil, List.mem_singleton] at hb
        subst hb
        obtain ⟨x, hx, hxe⟩ := List.mem_filterMap.mp ha
        exact hany (List.any_eq_true.mpr ⟨x, hx, by simp [hxe]⟩)
    · simpa using h

/-- **C1.** Ingestion is idempotent per `(user_id, event_id)`:
(a) in the in-memory backend, re-submitting an `event_id` that is
already stored in that user's partition returns the store unchanged
(silent no-op); (b) after any sequence of `add_event` calls starting
from the empty store, an `event_id` occurs at most once in each user's
in-memory partition; (c) in the SQLite backend, re-submitting an
`event_id` already present in the table (in particular, in that user's
partition) leaves the table unchanged; (d) after any sequence of
`add_event` calls starting from the empty table, a non-`NULL`
`event_id` occurs at most once in each user's partition. -/
theorem C1_idempotent_ingestion :
    (∀ (parse : String → Option Int) (st : InMemoryStore) (u : String) (e : MRaw)
        (fresh i : String) (x : MEvent),
      x ∈ st u → x.event_id = i → e.event_id = some i → ¬ i = "" →
      InMemoryStore.add_event parse st u e fresh = st) ∧
    (∀ (parse : String → Option Int) (ops : List (String × MRaw × String)) (v : String),
      (((InMemoryStore.addAll parse ops InMemoryStore.empty) v).map MEvent.event_id).Nodup) ∧
    (∀ (db : SqliteStore) (u : String) (r : SqlRow) (eid : Option String)
        (ts : Option Int) (ty : Option String) (i : String),
      r ∈ db → r.user_id = u → r.event_id = some i → eid = some i →
      SqliteStore.add_event db u eid ts ty = db) ∧
    (∀ (ops : List (String × Option String × Option Int × Option String)) (v : String),
      (((SqliteStore.addAll ops []).filter (fun r => r.user_id = v)).filterMap
        SqlRow.event_id).Nodup) := by
  refine ⟨?_, ?_, ?_, ?_⟩
  · intro parse st u e fresh i x hx hxe he hi
    unfold InMemoryStore.add_event
    have heid : (match e.event_id with
        | some s => if s = "" then fresh else s
        | Option.none => fresh) = i := by rw [he]; simp [hi]
    rw [heid]
    rw [if_pos (List.any_eq_true.mpr ⟨x, hx, by simp [hxe]⟩)]
  · intro parse ops v
    have key : ∀ (ops : List (String × MRaw × String)) (st : InMemoryStore),
        (∀ w, ((st w).map MEvent.event_id).Nodup) →
        ∀ w, (((InMemoryStore.addAll parse ops st) w).map MEvent.event_id).Nodup := by
      intro ops
      induction ops with
      | nil => intro st h w; exact h w
      | cons op rest ih =>
        intro st h w
        exact ih _ (fun w' => mem_add_event_nodup parse st op.1 op.2.1 op.2.2 w' (h w')) w
    exact key ops InMemoryStore.empty (fun _ => by simp [InMemoryStore.empty]) v
  · intro db u r eid ts ty i hr hru hre heid
    subst heid
    unfold SqliteStore.add_event
    cases ts with
    | none => rfl
    | some t =>
      have hx : (db.any fun r => decide (r.event_id = some i)) = true :=
        List.any_eq_true.mpr ⟨r, hr, by simp [hre]⟩
      simp [hx]
  · intro ops v
    have key : ∀ (ops : List (String × Option String × Option Int × Option String))
        (db : SqliteStore), (db.filterMap SqlRow.event_id).Nodup →
        ((SqliteStore.addAll ops db).filterMap SqlRow.event_id).Nodup := by
      intro ops
      induction ops with
      | nil => intro db h; exact h
      | cons op rest ih =>
        intro db h
        exact ih _ (sql_add_event_nodup db op.1 op.2.1 op.2.2.1 op.2.2.2 h)
    have hglobal : (((SqliteStore.addAll ops []).filterMap SqlRow.event_id)).Nodup :=
      key ops [] (by simp)
    exact ((List.filter_sublist _).filterMap _).nodup hglobal

/-- Witness for C1: re-adding a stored `event_id` is a no-op in both
backends, and a two-`add_event` run keeps the partition duplicate-free. -/
theorem C1_idempotent_ingestion_witness :
    (InMemoryStore.add_event (fun _ => Option.none)
        (fun u => if u = "u" then [⟨"e1", some "t", .dt 0⟩] else []) "u"
        ⟨some "e1", some "t", .dt 5⟩ "fresh"
      = (fun u => if u = "u" then [⟨"e1", some "t", .dt 0⟩] else [])) ∧
    (SqliteStore.add_event [⟨some "e1", "u", 0, some "t"⟩] "u" (some "e1") (some 5) (some "t")
      = [⟨some "e1", "u", 0, some "t"⟩]) ∧
    ((((InMemoryStore.addAll (fun _ => Option.none)
        [("u", ⟨some "e1", some "t", .dt 0⟩, "f1"), ("u", ⟨some "e1", some "t", .dt 5⟩, "f2")]
        InMemoryStore.empty) "u").map MEvent.event_id).Nodup) := by
  refine ⟨?_, ?_, ?_⟩
  · exact C1_idempotent_ingestion.1 (fun _ => Option.none) _ "u"
      ⟨some "e1", some "t", .dt 5⟩ "fresh" "e1" ⟨"e1", some "t", .dt 0⟩
      (by simp) rfl rfl (by decide)
  · exact C1_idempotent_ingestion.2.2.1 [⟨some "e1", "u", 0, some "t"⟩] "u"
      ⟨some "e1", "u", 0, some "t"⟩ (some "e1") (some 5) (some "t") "e1"
      (by simp) rfl rfl rfl
  · exact C1_idempotent_ingestion.2.1 (fun _ => Option.none)
      [("u", ⟨some "e1", some "t", .dt 0⟩, "f1"), ("u", ⟨some "e1", some "t", .dt 5⟩, "f2")] "u"

/-! ## Claim C10 — the `since` filter drops falsy timestamps -/

/-- Everything kept by the `since` filter has a datetime timestamp at
or after `since`. -/
theorem tsFilter_mem_dt (since : Int) :
    ∀ (l l' : List MEvent), tsFilter since l = .ok l' →
      ∀ x ∈ l', ∃ t, x.timestamp = PTs.dt t ∧ since ≤ t := by
  intro l
  induction l with
  | nil => intro l' h x hx; cases h; simp at hx
  | cons e rest ih =>
    intro l' h x hx
    unfold tsFilter at h
    split at h
    · next t het =>
      cases hr : tsFilter since rest with
      | error msg => rw [hr] at h; cases h
      | ok r =>
        rw [hr] at h
        simp only [Except.ok.injEq] at h
        subst h
        by_cases hle : since ≤ t
        · rw [if_pos hle] at hx
          rcases List.mem_cons.mp hx with hxe | hxr
          · exact ⟨t, by rw [hxe]; exact het, hle⟩
          · exact ih r hr x hxr
        · rw [if_neg hle] at hx
          exact ih r hr x hx
    · next s hes =>
      split at h
      · exact ih l' h x hx
      · cases h
    · exact ih l' h x hx

/-- **C10.** When a `since` bound is supplied,
`InMemoryStore.get_events(user_id, since)` silently omits every stored
event whose timestamp is missing or falsy, although the very same
event is returned by `get_events(user_id)` without `since`. -/
theorem C10_since_drops_falsy_timestamps (st : InMemoryStore) (u : String)
    (since : Int) (l : List MEvent) (e : MEvent)
    (hok : InMemoryStore.get_events_since st u since = .ok l)
    (he : e ∈ st u)
    (hfalsy : e.timestamp = PTs.missing ∨ e.timestamp = PTs.sv "") :
    e ∉ l ∧ e ∈ InMemoryStore.get_events st u := by
  refine ⟨?_, he⟩
  intro hel
  obtain ⟨t, ht, _⟩ := tsFilter_mem_dt since (st u) l hok e hel
  rcases hfalsy with hf | hf <;> rw [hf] at ht <;> cases ht

/-- Witness for C10: a store holding one event without a timestamp
(stored by `add_event`) returns it without `since` and omits it with
`since`. -/
theorem C10_since_drops_falsy_timestamps_witness :
    ((⟨"e1", some "t", PTs.missing⟩ : MEvent)
        ∉ (([] : List MEvent))) ∧
    (⟨"e1", some "t", PTs.missing⟩ : MEvent) ∈ InMemoryStore.get_events
      (InMemoryStore.add_event (fun _ => Option.none) InMemoryStore.empty "u"
        ⟨some "e1", some "t", PTs.missing⟩ "f") "u" := by
  exact C10_since_drops_falsy_timestamps
    (InMemoryStore.add_event (fun _ => Option.none) InMemoryStore.empty "u"
      ⟨some "e1", some "t", PTs.missing⟩ "f") "u" 0 []
    ⟨"e1", some "t", PTs.missing⟩ rfl (by decide) (Or.inl rfl)

/-! ## Claim C4 — `get_events` ordering and `since` filtering -/

/-- The claim's reading of "ordered by timestamp (non-decreasing)":
consecutive datetime timestamps never decrease. -/
def sortedByTimestamp : List MEvent → Bool
  | [] => true
  | [_] => true
  | a :: b :: rest =>
    (match a.timestamp, b.timestamp with
     | .dt x, .dt y => decide (x ≤ y)
     | _, _ => true) && sortedByTimestamp (b :: rest)

/-- A store built by two in-memory `add_event` calls whose timestamps
arrive out of order. -/
def c4store : InMemoryStore :=
  InMemoryStore.add_event (fun _ => Option.none)
    (InMemoryStore.add_event (fun _ => Option.none) InMemoryStore.empty "u"
      ⟨some "a", some "t", .dt 10⟩ "f1")
    "u" ⟨some "b", some "t", .dt 5⟩ "f2"

/-- **C4, counterexample.**  The in-memory backend returns the user's
events in insertion order, not timestamp order: after storing an event
with timestamp `10` and then one with timestamp `5`,
`get_events` returns them as `[10, 5]` — not non-decreasing, refuting
"ordered by timestamp … in both the in-memory and the SQLite
backend". -/
theorem C4_counterexample :
    ((InMemoryStore.get_events c4store "u").map MEvent.timestamp
      = [PTs.dt 10, PTs.dt 5])
    ∧ sortedByTimestamp (InMemoryStore.get_events c4store "u") = false := by
  decide

/-- When no stored event carries a truthy unparsed string timestamp,
the `since` filter returns exactly the events with a datetime at or
after `since`, in order. -/
theorem tsFilter_ok_of_no_badstr (since : Int) :
    ∀ (l : List MEvent), (∀ e ∈ l, ∀ v, e.timestamp = PTs.sv v → v = "") →
      tsFilter since l = .ok (l.filter (fun e =>
        match e.timestamp with
        | .dt t => decide (since ≤ t)
        | _ => false)) := by
  intro l
  induction l with
  | nil => intro _; rfl
  | cons e rest ih =>
    intro h
    have hrest := ih (fun x hx => h x (List.mem_cons_of_mem e hx))
    unfold tsFilter
    split
    · next t het =>
      rw [hrest]
      by_cases hle : since ≤ t
      · simp [List.filter_cons, het, hle]
      · simp [List.filter_cons, het, hle]
    · next s hes =>
      have hse : s = "" := h e (List.mem_cons_self e rest) s hes
      rw [if_pos hse, hrest]
      simp [List.filter_cons, hes]
    · next hmiss =>
      rw [hrest]
      have : (match e.timestamp with
          | .dt t => decide (since ≤ t)
          | _ => false) = false := by
        rw [hmiss]
      simp [List.filter_cons, this]

/-- A single truthy unparsed string timestamp anywhere in the list
makes the `since` filter raise (`str >= datetime` is a `TypeError`),
aborting the whole call. -/
theorem tsFilter_error_of_badstr (since : Int) :
    ∀ (l : List MEvent) (e : MEvent) (v : String),
      e ∈ l → e.timestamp = PTs.sv v → ¬ v = "" →
      tsFilter since l = .error () := by
  intro l
  induction l with
  | nil => intro e v he; simp at he
  | cons x rest ih =>
    intro e v he hev hv
    unfold tsFilter
    rcases List.mem_cons.mp he with rfl | hrest
    · rw [hev]
      simp only [if_neg hv]
    · split
      · rw [ih e v hrest hev hv]
      · next s hxs =>
        by_cases hs : s = ""
        · rw [if_pos hs]
          exact ih e v hrest hev hv
        · rw [if_neg hs]
      · exact ih e v hrest hev hv

/-- **C4, amended.**  The SQLite backend's `get_events` is as claimed:
the full history sorted by timestamp, the `since` view exactly the
rows at or after `since`, sorted.  The in-memory backend, however,
returns the partition in insertion order (not timestamp order); with
`since` it returns exactly the stored events whose timestamp is a
parsed datetime at or after `since`, in insertion order, provided no
stored event of the partition retains a truthy unparsed string
timestamp — if one does, the call raises (`str >= datetime` is a
`TypeError`) instead of returning a list. -/
theorem C4_amended :
    (∀ (db : SqliteStore) (u : String),
      List.Sorted rowLE (SqliteStore.get_events db u Option.none) ∧
      (SqliteStore.get_events db u Option.none).Perm
        (db.filter (fun r => r.user_id = u))) ∧
    (∀ (db : SqliteStore) (u : String) (s : Int),
      List.Sorted rowLE (SqliteStore.get_events db u (some s)) ∧
      (SqliteStore.get_events db u (some s)).Perm
        (db.filter (fun r => r.user_id = u ∧ s ≤ r.ts))) ∧
    (∀ (st : InMemoryStore) (u : String), InMemoryStore.get_events st u = st u) ∧
    (∀ (st : InMemoryStore) (u : String) (s : Int),
      (∀ e ∈ st u, ∀ v, e.timestamp = PTs.sv v → v = "") →
      InMemoryStore.get_events_since st u s
        = .ok ((st u).filter (fun e =>
            match e.timestamp with
            | .dt t => decide (s ≤ t)
            | _ => false))) ∧
    (∀ (st : InMemoryStore) (u : String) (s : Int) (e : MEvent) (v : String),
      e ∈ st u → e.timestamp = PTs.sv v → ¬ v = "" →
      InMemoryStore.get_events_since st u s = .error ()) := by
  refine ⟨?_, ?_, fun _ _ => rfl, ?_, ?_⟩
  · intro db u
    refine ⟨List.sorted_insertionSort rowLE _, ?_⟩
    refine (List.perm_insertionSort rowLE _).trans ?_
    rw [List.filter_congr (fun r _ => ?_)]
    simp
  · intro db u s
    refine ⟨List.sorted_insertionSort rowLE _, ?_⟩
    refine (List.perm_insertionSort rowLE _).trans ?_
    rw [List.filter_congr (fun r _ => ?_)]
    simp
  · intro st u s h
    exact tsFilter_ok_of_no_badstr s (st u) h
  · intro st u s e v he hev hv
    exact tsFilter_error_of_badstr s (st u) e v he hev hv

/-- A store that kept an unparsable string timestamp as-is
(`store.py` leaves it in place when `fromisoformat` fails). -/
def c4badstore : InMemoryStore :=
  InMemoryStore.add_event (fun _ => Option.none) InMemoryStore.empty "u"
    ⟨some "g", some "t", .sv "garbage"⟩ "f"

/-- Witness for C4 at a concrete SQLite table, a concrete in-memory
partition, and a concrete partition holding an unparsed string
timestamp (where the `since` call raises). -/
theorem C4_amended_witness :
    List.Sorted rowLE (SqliteStore.get_events
      [⟨some "a", "u", 5, Option.none⟩, ⟨some "b", "u", 3, Option.none⟩] "u" Option.none) ∧
    (InMemoryStore.get_events_since c4store "u" 6
      = .ok [⟨"a", some "t", .dt 10⟩]) ∧
    (InMemoryStore.get_events_since c4badstore "u" 0 = .error ()) := by
  refine ⟨?_, ?_, ?_⟩
  · exact (C4_amended.1
      [⟨some "a", "u", 5, Option.none⟩, ⟨some "b", "u", 3, Option.none⟩] "u").1
  · have h := C4_amended.2.2.2.1 c4store "u" 6 ?_
    · rw [h]
      rfl
    · have hc : c4store "u" = [⟨"a", some "t", PTs.dt 10⟩, ⟨"b", some "t", PTs.dt 5⟩] := rfl
      intro e he v hv
      rw [hc] at he
      simp only [List.mem_cons, List.not_mem_nil, or_false] at he
      rcases he with rfl | rfl <;> simp at hv
  · exact C4_amended.2.2.2.2 c4badstore "u" 0 ⟨"g", some "t", .sv "garbage"⟩ "garbage"
      (by decide) rfl (by decide)

/-! ## Claim C5 — high context-switch rule -/

/-- A concrete rules context for counterexamples and witnesses:
no string parses, rendering irrelevant, `utcnow() = 0`. -/
def rctx0 : RulesCtx := ⟨fun _ => Option.none, fun _ => "", 0⟩

/-- `n` `window_focus` events inside the trailing window. -/
def wfEvents (n : Nat) : List REvent :=
  (List.range n).map (fun i => ⟨some "e", some "window_focus", .dt i⟩)

/-- **C5, counterexample.**  At exactly `2 × threshold` switches (24
with the default threshold 12), the source emits severity `high`
(`count < threshold * 2` fails), while the claim — "medium unless
count *exceeds* 2× the threshold" — demands `medium`: the claim is
false at 24 `window_focus` events in the window. -/
theorem C5_counterexample :
    ((high_context_switch_rule rctx0 "x" (wfEvents 24)).map Suggestion.severity = ["high"])
    ∧ (contextSwitches rctx0 10 (_ensure_sorted_events rctx0 (wfEvents 24))).length = 24
    ∧ ¬ (2 * 12 < 24) := by
  decide

/-- **C5, amended.**  With the default window (10 minutes) and
threshold (12), `high_context_switch_rule` emits nothing when the
count of `window_focus`/`app_switch` events in the window is at most
12, and exactly one suggestion when the count exceeds 12, with
confidence `min(0.99, count/(threshold*1.5))` and severity `medium`
when the count is *below* 2× the threshold and `high` from `2 ×
threshold` upward. -/
theorem C5_amended (ctx : RulesCtx) (uuid : String) (events : List REvent) :
    ((contextSwitches ctx 10 (_ensure_sorted_events ctx events)).length ≤ 12 →
      high_context_switch_rule ctx uuid events = []) ∧
    (12 < (contextSwitches ctx 10 (_ensure_sorted_events ctx events)).length →
      (high_context_switch_rule ctx uuid events).map (fun s => (s.severity, s.confidence))
        = [((if (contextSwitches ctx 10 (_ensure_sorted_events ctx events)).length < 24
              then "medium" else "high"),
            min (99/100)
              (((contextSwitches ctx 10 (_ensure_sorted_events ctx events)).length : ℚ)
                / 18))]) := by
  constructor
  · intro h
    simp only [high_context_switch_rule]
    rw [if_neg (not_lt.mpr h)]
  · intro h
    simp only [high_context_switch_rule]
    rw [if_pos h]
    simp only [List.map_cons, List.map_nil, List.cons.injEq, Prod.mk.injEq, and_true]
    constructor
    · norm_num
    · norm_num

/-- Witness for C5 at the spec's probe: 13 `window_focus` events
within the last 10 minutes yield exactly one suggestion with severity
`medium` (and confidence `13/18`). -/
theorem C5_amended_witness :
    (high_context_switch_rule rctx0 "u" (wfEvents 13)).map (fun s => (s.severity, s.confidence))
      = [("medium", (13 : ℚ)/18)] := by
  have hc : (contextSwitches rctx0 10 (_ensure_sorted_events rctx0 (wfEvents 13))).length = 13 := by
    decide
  have h := (C5_amended rctx0 "u" (wfEvents 13)).2 (by rw [hc]; norm_num)
  rw [hc] at h
  rw [h]
  norm_num [min_eq_right]

/-! ## Claim C8 — repeated-sequence rule -/

/-- `uniqueInOrder` neither adds nor removes values. -/
theorem mem_uniqueInOrder (l : List (List String)) (x : List String) :
    x ∈ uniqueInOrder l ↔ x ∈ l := by
  induction l with
  | nil => simp [uniqueInOrder]
  | cons a t ih =>
    simp only [uniqueInOrder, List.mem_cons, List.mem_filter, ih]
    by_cases hx : x = a
    · simp [hx]
    · simp [hx]

/-- `n` events of type `"a"`. -/
def aEvents (n : Nat) : List REvent :=
  (List.range n).map (fun i => ⟨some "e", some "a", .dt i⟩)

/-- **C8, counterexample.**  Five events of the same type contain a
3-gram that repeats 3 times (overlapping sliding windows, the very
count the source uses), yet `repeated_sequence_rule` emits nothing:
the guard `len(types) < seq_len * min_repeat` returns early at `5 < 9`,
refuting the claim's "for every sorted event list in which some
length-3 sequence repeats at least 3 times … emits one suggestion". -/
theorem C8_counterexample :
    (3 ≤ (windows (typesOf (_ensure_sorted_events rctx0 (aEvents 5))) 3).count ["a", "a", "a"])
    ∧ repeated_sequence_rule rctx0 "x" (aEvents 5) = [] := by
  decide

/-- **C8, amended.**  With the defaults (`seq_len = 3`,
`min_repeat = 3`): the rule emits nothing when there are fewer than
`seq_len * min_repeat = 9` typed events, or when no 3-gram reaches 3
(overlapping) occurrences; when there are at least 9 typed events and
some 3-gram reaches 3 occurrences, it emits exactly one automation
suggestion whose confidence is `min(0.9, c/min_repeat)` for `c` the
occurrence count of the first qualifying 3-gram in order of first
occurrence. -/
theorem C8_amended (ctx : RulesCtx) (uuid : String) (events : List REvent) :
    ((typesOf (_ensure_sorted_events ctx events)).length < 3 * 3 →
      repeated_sequence_rule ctx uuid events = []) ∧
    ((∀ w ∈ windows (typesOf (_ensure_sorted_events ctx events)) 3,
        (windows (typesOf (_ensure_sorted_events ctx events)) 3).count w < 3) →
      repeated_sequence_rule ctx uuid events = []) ∧
    (∀ w, ¬ (typesOf (_ensure_sorted_events ctx events)).length < 3 * 3 →
      (uniqueInOrder (windows (typesOf (_ensure_sorted_events ctx events)) 3)).find?
          (fun w' => decide (3 ≤ (windows (typesOf (_ensure_sorted_events ctx events)) 3).count w'))
        = some w →
      (repeated_sequence_rule ctx uuid events).map (fun s => (s.title, s.confidence))
        = [("Repeated manual sequence",
            min (9/10)
              (((windows (typesOf (_ensure_sorted_events ctx events)) 3).count w : ℚ) / 3))]) ∧
    ((∃ w ∈ windows (typesOf (_ensure_sorted_events ctx events)) 3,
        3 ≤ (windows (typesOf (_ensure_sorted_events ctx events)) 3).count w) →
      ((uniqueInOrder (windows (typesOf (_ensure_sorted_events ctx events)) 3)).find?
          (fun w' => decide (3 ≤ (windows (typesOf (_ensure_sorted_events ctx events)) 3).count w'))).isSome) := by
  refine ⟨?_, ?_, ?_, ?_⟩
  · intro h
    simp only [repeated_sequence_rule]
    rw [if_pos h]
  · intro h
    simp only [repeated_sequence_rule]
    by_cases hlen : (typesOf (_ensure_sorted_events ctx events)).length < 3 * 3
    · rw [if_pos hlen]
    · rw [if_neg hlen]
      have hnone : (uniqueInOrder (windows (typesOf (_ensure_sorted_events ctx events)) 3)).find?
          (fun w' => decide (3 ≤ (windows (typesOf (_ensure_sorted_events ctx events)) 3).count w'))
          = Option.none := by
        rw [List.find?_eq_none]
        intro x hx
        have hxw := (mem_uniqueInOrder _ x).mp hx
        simpa using h x hxw
      rw [hnone]
  · intro w hlen hfind
    simp only [repeated_sequence_rule]
    rw [if_neg hlen, hfind]
    simp only [List.map_cons, List.map_nil, List.cons.injEq, Prod.mk.injEq, and_true]
    exact ⟨trivial, by norm_num⟩
  · rintro ⟨w, hw, hc⟩
    rw [List.find?_isSome]
    exact ⟨w, (mem_uniqueInOrder _ w).mpr hw, by simpa using hc⟩

/-- Witness for C8: nine events of one type trigger exactly one
automation suggestion with confidence `min(0.9, 7/3) = 0.9`. -/
theorem C8_amended_witness :
    (repeated_sequence_rule rctx0 "u" (aEvents 9)).map (fun s => (s.title, s.confidence))
      = [("Repeated manual sequence", (9 : ℚ)/10)] := by
  have hcount : (windows (typesOf (_ensure_sorted_events rctx0 (aEvents 9))) 3).count
      ["a", "a", "a"] = 7 := by decide
  have h := (C8_amended rctx0 "u" (aEvents 9)).2.2.1 ["a", "a", "a"] (by decide) (by decide)
  rw [hcount] at h
  rw [h]
  norm_num [min_eq_left]

/-! ## Claim C7 — rule combination and scoring -/

/-- **C7.** `run_rules_and_score` runs every rule over the sorted
events and returns, sorted descending by score, exactly the
suggestions of the non-failing rules, each scored
`severity_weight*0.6 + clamp(confidence)*0.4` (severity weight: low 1,
medium 2, high 3, unknown 1); a rule that raises is skipped and leaves
the batch unchanged. -/
theorem C7_run_rules_and_score (ctx : RulesCtx) (events : List REvent) (rules : List Rule) :
    List.Sorted sugGE (run_rules_and_score ctx events rules) ∧
    (run_rules_and_score ctx events rules).Perm
      ((collectOk rules (_ensure_sorted_events ctx events)).map (fun s =>
        (s, sevWeight s.severity * (3/5) + clamp01 s.confidence * (2/5)))) ∧
    (∀ p ∈ run_rules_and_score ctx events rules,
      p.2 = sevWeight p.1.severity * (3/5) + clamp01 p.1.confidence * (2/5)) ∧
    (∀ (pre post : List Rule) (bad : Rule) (msg : String),
      bad (_ensure_sorted_events ctx events) = .error msg →
      run_rules_and_score ctx events (pre ++ bad :: post)
        = run_rules_and_score ctx events (pre ++ post)) := by
  refine ⟨List.sorted_insertionSort sugGE _, List.perm_insertionSort sugGE _, ?_, ?_⟩
  · intro p hp
    have hp' := (List.perm_insertionSort sugGE _).mem_iff.mp hp
    obtain ⟨s, _, rfl⟩ := List.mem_map.mp hp'
    rfl
  · intro pre post bad msg hbad
    simp only [run_rules_and_score, collectOk, List.map_append, List.map_cons,
      List.flatten_append, List.flatten_cons, hbad]
    simp

/-- Witness for C7: one raising rule between two healthy ones changes
nothing, and the output of a concrete run is sorted. -/
theorem C7_run_rules_and_score_witness :
    (run_rules_and_score rctx0 []
        [fun _ => .ok [⟨"i", "T", "d", "low", 1/2, [], "a"⟩],
         fun _ => .error "boom",
         fun _ => .ok [⟨"j", "U", "d", "high", 3/4, [], "a"⟩]]
      = run_rules_and_score rctx0 []
        [fun _ => .ok [⟨"i", "T", "d", "low", 1/2, [], "a"⟩],
         fun _ => .ok [⟨"j", "U", "d", "high", 3/4, [], "a"⟩]]) ∧
    List.Sorted sugGE (run_rules_and_score rctx0 []
      [fun _ => .ok [⟨"i", "T", "d", "low", 1/2, [], "a"⟩],
       fun _ => .ok [⟨"j", "U", "d", "high", 3/4, [], "a"⟩]]) := by
  constructor
  · exact (C7_run_rules_and_score rctx0 []
      [fun _ => .ok [⟨"i", "T", "d", "low", 1/2, [], "a"⟩],
       fun _ => .ok [⟨"j", "U", "d", "high", 3/4, [], "a"⟩]]).2.2.2
      [fun _ => .ok [⟨"i", "T", "d", "low", 1/2, [], "a"⟩]]
      [fun _ => .ok [⟨"j", "U", "d", "high", 3/4, [], "a"⟩]]
      (fun _ => .error "boom") "boom" rfl
  · exact (C7_run_rules_and_score rctx0 []
      [fun _ => .ok [⟨"i", "T", "d", "low", 1/2, [], "a"⟩],
       fun _ => .ok [⟨"j", "U", "d", "high", 3/4, [], "a"⟩]]).1

/-! ## Claim C6 — ranker -/

/-- Inserting into a descending-ordered list commutes with filtering
by an exact score: the elements skipped on the way in all have a
strictly larger score. -/
theorem filter_orderedInsert_rnk (q : ℚ) (x : RSugg × ℚ) (l : List (RSugg × ℚ)) :
    (List.orderedInsert rnkGE x l).filter (fun p => decide (p.2 = q))
      = if x.2 = q then x :: l.filter (fun p => decide (p.2 = q))
        else l.filter (fun p => decide (p.2 = q)) := by
  induction l with
  | nil =>
    by_cases hx : x.2 = q <;> simp [List.orderedInsert, List.filter_cons, hx]
  | cons y ys ih =>
    unfold List.orderedInsert
    by_cases hr : rnkGE x y
    · rw [if_pos hr]
      by_cases hx : x.2 = q <;> simp [List.filter_cons, hx]
    · rw [if_neg hr]
      have hxy : x.2 < y.2 := lt_of_not_le hr
      by_cases hx : x.2 = q
      · have hy : ¬ (y.2 = q) := fun hq => absurd (hq.trans hx.symm) (ne_of_gt hxy)
        simp [List.filter_cons, hy, ih, hx]
      · simp [List.filter_cons, ih, hx]

/-- The ranker's sort is stable: filtering any exact score out of the
sorted output returns those entries in their original order. -/
theorem filter_insertionSort_rnk (q : ℚ) (l : List (RSugg × ℚ)) :
    (List.insertionSort rnkGE l).filter (fun p => decide (p.2 = q))
      = l.filter (fun p => decide (p.2 = q)) := by
  induction l with
  | nil => rfl
  | cons x xs ih =>
    rw [List.insertionSort, filter_orderedInsert_rnk, ih]
    by_cases hx : x.2 = q <;> simp [List.filter_cons, hx]

/-- **C6.** `rank_suggestions` returns the input suggestions sorted
descending by final score — a permutation of the scored inputs in
which equal scores keep their input order (stable sort) — where each
final score is the blend `0.3*severity + 0.4*recency + 0.15*evidence
+ 0.15*accept_rate` multiplied by `(1 + per_title_rate*0.5)` when the
title has a learned per-title rate and by `(1 + global_accept_rate*0.2)`
otherwise, and the accept rate over this user's action history is the
fraction of records on this exact suggestion id whose action is
`accept` — `0.0` when no record matches the id, so unrelated history
never contributes. -/
theorem C6_rank_suggestions (ctx : RulesCtx) (w : Weights)
    (getActions : String → List ActionRecord) (uid : String) (suggestions : List RSugg) :
    List.Sorted rnkGE (rank_suggestions ctx w getActions suggestions uid) ∧
    (rank_suggestions ctx w getActions suggestions uid).Perm
      (suggestions.map (fun s => (s, rankScore ctx w (getActions uid) s))) ∧
    (∀ q : ℚ, (rank_suggestions ctx w getActions suggestions uid).filter
          (fun p => decide (p.2 = q))
        = (suggestions.map (fun s => (s, rankScore ctx w (getActions uid) s))).filter
          (fun p => decide (p.2 = q))) ∧
    (∀ s : RSugg, rankScore ctx w (getActions uid) s =
      (sevWeight ((s.severity).getD "low") * (3/10)
        + recencyScore ctx s.evidence * (2/5)
        + min 1 ((s.evidence.length : ℚ) / 5) * (3/20)
        + _user_accept_rate_for_suggestion (getActions uid) s.id * (3/20))
      * (match learnedRate w s.title with
         | some r => 1 + r * (1/2)
         | Option.none => 1 + w.global_accept_rate * (1/5))) ∧
    (∀ (acts : List ActionRecord) (sid : Option String),
      acts.filter (fun a => a.suggestion_id = sid) = [] →
      _user_accept_rate_for_suggestion acts sid = 0) ∧
    (∀ (acts : List ActionRecord) (sid : Option String),
      ¬ acts.filter (fun a => a.suggestion_id = sid) = [] →
      _user_accept_rate_for_suggestion acts sid =
        ((acts.filter (fun a => a.suggestion_id = sid)).countP
            (fun a => a.action = some "accept") : ℚ)
          / ((acts.filter (fun a => a.suggestion_id = sid)).length : ℚ)) := by
  refine ⟨List.sorted_insertionSort rnkGE _, List.perm_insertionSort rnkGE _,
    fun q => filter_insertionSort_rnk q _, ?_, ?_, ?_⟩
  · intro s
    cases hl : learnedRate w s.title <;> simp [rankScore, hl]
  · intro acts sid h
    simp only [_user_accept_rate_for_suggestion, h]
    by_cases ha : acts.isEmpty <;> simp [ha]
  · intro acts sid h
    have hne : ¬ acts = [] := by
      intro h0
      subst h0
      exact h rfl
    simp only [_user_accept_rate_for_suggestion]
    rw [if_neg (by simpa [List.isEmpty_iff] using hne),
      if_neg (by simpa [List.isEmpty_iff] using h)]

/-- Witness for C6: with one recorded `accept` on suggestion id `sB`,
the accept rate is `1` for `sB` and `0` for the unrelated `sA`. -/
theorem C6_rank_suggestions_witness :
    _user_accept_rate_for_suggestion [⟨some "sB", some "accept"⟩] (some "sA") = 0 ∧
    _user_accept_rate_for_suggestion [⟨some "sB", some "accept"⟩] (some "sB") = 1 := by
  constructor
  · exact (C6_rank_suggestions rctx0 ⟨0, []⟩ (fun _ => [⟨some "sB", some "accept"⟩]) "u"
      []).2.2.2.2.1 [⟨some "sB", some "accept"⟩] (some "sA") (by decide)
  · have h := (C6_rank_suggestions rctx0 ⟨0, []⟩ (fun _ => [⟨some "sB", some "accept"⟩]) "u"
      []).2.2.2.2.2 [⟨some "sB", some "accept"⟩] (some "sB") (by decide)
    rw [h]
    have h1 : ([⟨some "sB", some "accept"⟩] : List ActionRecord).filter
        (fun a => decide (a.suggestion_id = some "sB")) = [⟨some "sB", some "accept"⟩] := by
      decide
    rw [h1]
    norm_num

/-! ## Claims C3 and C9 — normalizer -/

theorem dlookup_dictSet_self (md : List (String × PyVal)) (k : String) (v : PyVal) :
    dlookup (dictSet md k v) k = some v := by
  induction md with
  | nil => simp [dictSet, dlookup]
  | cons p rest ih =>
    obtain ⟨k', v'⟩ := p
    by_cases hk : k' = k
    · simp [dictSet, dlookup, hk]
    · simp only [dictSet, if_neg hk, dlookup, if_neg hk]
      exact ih

theorem dlookup_dictSet_ne (md : List (String × PyVal)) (k : String) (v : PyVal)
    (j : String) (h : ¬ j = k) :
    dlookup (dictSet md k v) j = dlookup md j := by
  induction md with
  | nil =>
    simp only [dictSet, dlookup]
    rw [if_neg (fun hk => h hk.symm)]
  | cons p rest ih =>
    obtain ⟨k', v'⟩ := p
    by_cases hk : k' = k
    · simp only [dictSet, if_pos hk, dlookup]
      rw [if_neg (fun hk2 => h hk2.symm), if_neg (fun hk2 => h (hk ▸ hk2).symm)]
    · simp only [dictSet, if_neg hk, dlookup]
      by_cases hj : k' = j
      · rw [if_pos hj, if_pos hj]
      · rw [if_neg hj, if_neg hj]
        exact ih

theorem dlookup_dictPop_self (md : List (String × PyVal)) (k : String) :
    dlookup (dictPop md k) k = Option.none := by
  induction md with
  | nil => rfl
  | cons p rest ih =>
    obtain ⟨k', v'⟩ := p
    by_cases hk : k' = k
    · simp only [dictPop, List.filter_cons, hk]
      simpa [dictPop] using ih
    · simp only [dictPop, List.filter_cons]
      rw [if_pos (by simpa using hk)]
      simp only [dlookup, if_neg hk]
      simpa [dictPop] using ih

theorem dlookup_dictPop_ne (md : List (String × PyVal)) (k : String) (j : String)
    (h : ¬ j = k) :
    dlookup (dictPop md k) j = dlookup md j := by
  induction md with
  | nil => rfl
  | cons p rest ih =>
    obtain ⟨k', v'⟩ := p
    by_cases hk : k' = k
    · simp only [dictPop, List.filter_cons, hk]
      rw [if_neg (by simp)]
      simp only [dlookup]
      rw [if_neg (fun hj => h hj.symm)]
      simpa [dictPop] using ih
    · simp only [dictPop, List.filter_cons]
      rw [if_pos (by simpa using hk)]
      simp only [dlookup]
      by_cases hj : k' = j
      · rw [if_pos hj, if_pos hj]
      · rw [if_neg hj, if_neg hj]
        simpa [dictPop] using ih

/-- A key never equals itself suffixed with `"_hash"`. -/
theorem ne_append_hash (k : String) : ¬ k = k ++ "_hash" := by
  intro h
  have hl := congrArg String.length h
  rw [String.length_append] at hl
  have h5 : ("_hash" : String).length = 5 := by decide
  omega

/-- A PII step for key `k` does not change any key other than `k` and
`k ++ "_hash"`. -/
theorem piiStep_lookup_other (ctx : NormCtx) (md : List (String × PyVal)) (k j : String)
    (h1 : ¬ j = k) (h2 : ¬ j = k ++ "_hash") :
    dlookup (piiStep ctx md k) j = dlookup md j := by
  unfold piiStep
  cases hl : dlookup md k with
  | none => rfl
  | some v =>
    by_cases ht : pyTruthy v = true
    · simp only [if_pos ht]
      rw [dlookup_dictPop_ne _ _ _ h1, dlookup_dictSet_ne _ _ _ _ h2]
    · simp only [if_neg ht]

/-- A PII step for key `k` whose value is present and truthy removes
`k` and writes the keyed hash under `k ++ "_hash"`. -/
theorem piiStep_hit (ctx : NormCtx) (md : List (String × PyVal)) (k : String) (v : PyVal)
    (hl : dlookup md k = some v) (ht : pyTruthy v = true) :
    dlookup (piiStep ctx md k) k = Option.none ∧
    dlookup (piiStep ctx md k) (k ++ "_hash")
      = some (.str (ctx.hashText (pyStr v) ctx.salt)) := by
  unfold piiStep
  rw [hl]
  simp only [if_pos ht]
  refine ⟨dlookup_dictPop_self _ _, ?_⟩
  rw [dlookup_dictPop_ne _ _ _ (fun h => ne_append_hash k h.symm),
    dlookup_dictSet_self]

theorem piiFold_append (ctx : NormCtx) (ks1 ks2 : List String)
    (md : List (String × PyVal)) :
    piiFold ctx (ks1 ++ ks2) md = piiFold ctx ks2 (piiFold ctx ks1 md) := by
  induction ks1 generalizing md with
  | nil => rfl
  | cons k rest ih =>
    simp only [List.cons_append, piiFold]
    exact ih _

/-- The PII loop does not change a key that is neither a PII key nor a
PII key suffixed `"_hash"`. -/
theorem piiFold_lookup_other (ctx : NormCtx) (ks : List String)
    (md : List (String × PyVal)) (j : String)
    (h : ∀ k ∈ ks, ¬ j = k ∧ ¬ j = k ++ "_hash") :
    dlookup (piiFold ctx ks md) j = dlookup md j := by
  induction ks generalizing md with
  | nil => rfl
  | cons k rest ih =>
    simp only [piiFold]
    rw [ih _ (fun k' hk' => h k' (List.mem_cons_of_mem k hk'))]
    obtain ⟨h1, h2⟩ := h k (List.mem_cons_self k rest)
    exact piiStep_lookup_other ctx md k j h1 h2

/-- The PII loop, at a key `k` listed once with well-separated
neighbours, removes `k` and stores its hash. -/
theorem piiFold_hit (ctx : NormCtx) (ks1 : List String) (k : String) (ks2 : List String)
    (md : List (String × PyVal)) (v : PyVal)
    (hl : dlookup md k = some v) (ht : pyTruthy v = true)
    (hpre : ∀ k' ∈ ks1, ¬ k = k' ∧ ¬ k = k' ++ "_hash")
    (hpost : ∀ k'' ∈ ks2,
      (¬ k = k'' ∧ ¬ k = k'' ++ "_hash") ∧
      (¬ (k ++ "_hash") = k'' ∧ ¬ (k ++ "_hash") = k'' ++ "_hash")) :
    dlookup (piiFold ctx (ks1 ++ k :: ks2) md) k = Option.none ∧
    dlookup (piiFold ctx (ks1 ++ k :: ks2) md) (k ++ "_hash")
      = some (.str (ctx.hashText (pyStr v) ctx.salt)) := by
  rw [piiFold_append]
  have hmid : dlookup (piiFold ctx ks1 md) k = some v :=
    (piiFold_lookup_other ctx ks1 md k hpre).trans hl
  have hstep := piiStep_hit ctx (piiFold ctx ks1 md) k v hmid ht
  have hred : piiFold ctx (k :: ks2) (piiFold ctx ks1 md)
      = piiFold ctx ks2 (piiStep ctx (piiFold ctx ks1 md) k) := rfl
  rw [hred]
  constructor
  · rw [piiFold_lookup_other ctx ks2 _ k (fun k'' hk'' => (hpost k'' hk'').1)]
    exact hstep.1
  · rw [piiFold_lookup_other ctx ks2 _ (k ++ "_hash") (fun k'' hk'' => (hpost k'' hk'').2)]
    exact hstep.2

/-- The PII-loop conclusion for every key of `PII_KEYS` at once. -/
theorem piiFold_hit_piikeys (ctx : NormCtx) (d : List (String × PyVal)) (k : String)
    (v : PyVal) (hk : k ∈ PII_KEYS) (hl : dlookup d k = some v)
    (ht : pyTruthy v = true) :
    dlookup (piiFold ctx PII_KEYS d) k = Option.none ∧
    dlookup (piiFold ctx PII_KEYS d) (k ++ "_hash")
      = some (.str (ctx.hashText (pyStr v) ctx.salt)) := by
  simp only [PII_KEYS, List.mem_cons, List.not_mem_nil, or_false] at hk
  rcases hk with rfl | rfl | rfl | rfl | rfl
  · exact piiFold_hit ctx [] _ ["user_email", "username", "name", "full_name"] d v hl ht
      (by simp) (by decide)
  · exact piiFold_hit ctx ["email"] _ ["username", "name", "full_name"] d v hl ht
      (by decide) (by decide)
  · exact piiFold_hit ctx ["email", "user_email"] _ ["name", "full_name"] d v hl ht
      (by decide) (by decide)
  · exact piiFold_hit ctx ["email", "user_email", "username"] _ ["full_name"] d v hl ht
      (by decide) (by decide)
  · exact piiFold_hit ctx ["email", "user_email", "username", "name"] _ [] d v hl ht
      (by decide) (by simp)

/-- No PII key, and no PII key suffixed `"_hash"`, is `"window_title"`:
the PII loop leaves the `window_title` binding unchanged. -/
theorem piiFold_window_title (ctx : NormCtx) (md : List (String × PyVal)) :
    dlookup (piiFold ctx PII_KEYS md) "window_title" = dlookup md "window_title" :=
  piiFold_lookup_other ctx PII_KEYS md "window_title" (by decide)

/-- The `window_title` step does not change any key other than
`window_title` and `window_title_hash`. -/
theorem windowTitleStep_lookup_other (ctx : NormCtx) (md md2 : List (String × PyVal))
    (j : String) (hok : windowTitleStep ctx md = .ok md2)
    (h1 : ¬ j = "window_title") (h2 : ¬ j = "window_title_hash") :
    dlookup md2 j = dlookup md j := by
  unfold windowTitleStep at hok
  split at hok
  · cases hok
    rfl
  · split at hok
    · split at hok
      · cases hok
        rw [dlookup_dictPop_ne _ _ _ h1, dlookup_dictSet_ne _ _ _ _ h2]
      · cases hok
    · cases hok
      rw [dlookup_dictSet_ne _ _ _ _ h1]

/-- The `window_title` step succeeds whenever a truthy `window_title`
value, if present, is a string. -/
theorem windowTitleStep_ok (ctx : NormCtx) (md : List (String × PyVal))
    (h : ∀ v, dlookup md "window_title" = some v → pyTruthy v = true →
      ∃ s, v = PyVal.str s) :
    ∃ md2, windowTitleStep ctx md = .ok md2 := by
  unfold windowTitleStep
  cases hw : dlookup md "window_title" with
  | none => exact ⟨md, rfl⟩
  | some v =>
    by_cases ht : pyTruthy v = true
    · obtain ⟨s, rfl⟩ := h v hw ht
      exact ⟨dictPop (dictSet md "window_title_hash"
          (.str (ctx.hashText (s.take MAX_TITLE_LEN) Option.none))) "window_title",
        by simp only [if_pos ht]⟩
    · exact ⟨dictSet md "window_title" (.str ""), by simp only [if_neg ht]⟩

/-- Truncation maps lookups pointwise. -/
theorem dlookup_map_trunc (md : List (String × PyVal)) (j : String) :
    dlookup (md.map (fun p => (p.1, truncVal p.2))) j = (dlookup md j).map truncVal := by
  induction md with
  | nil => rfl
  | cons p rest ih =>
    obtain ⟨k', v'⟩ := p
    simp only [List.map_cons, dlookup]
    by_cases hj : k' = j
    · rw [if_pos hj, if_pos hj]
      rfl
    · rw [if_neg hj, if_neg hj]
      exact ih

/-- A concrete normalizer context for counterexamples and witnesses:
no string parses, the digest of `s` rendered as `"#" ++ s`, no salt,
`utcnow() = 0`. -/
def nctx0 : NormCtx := ⟨fun _ => Option.none, fun s _ => "#" ++ s, Option.none, 0⟩

/-- **C3, counterexample.**  The PII loop hashes only *truthy* values
(`if k in meta and meta.get(k)`): for `meta = {'email': ''}` the
normalized meta still contains `email` and contains no `email_hash`,
refuting "for every raw event whose meta contains an 'email' field". -/
theorem C3_counterexample :
    (normalize_event nctx0 [("meta", PyVal.dict [("email", PyVal.str "")])]).toOption.map
        (fun ev => ((dlookup ev.meta "email").isSome, (dlookup ev.meta "email_hash").isSome))
      = some (true, false) := by
  rfl

/-- **C3, amended.**  For every raw event whose meta contains a PII
field (`email`, `user_email`, `username`, `name`, `full_name`) with a
*truthy* (non-empty) value, whenever normalization returns an event
its meta no longer contains that key and contains `<key>_hash`
holding the one-way hash of the original value — `HMAC(salt, value)`
when a salt is configured (the digest being far shorter than the
1000-character truncation bound). -/
theorem C3_amended (ctx : NormCtx) (raw : List (String × PyVal))
    (d : List (String × PyVal)) (k : String) (v : PyVal) (ev : NormEvent)
    (hmeta : dlookup raw "meta" = some (PyVal.dict d))
    (hk : k ∈ PII_KEYS) (hv : dlookup d k = some v) (ht : pyTruthy v = true)
    (hhash : (ctx.hashText (pyStr v) ctx.salt).length ≤ 1000)
    (hok : normalize_event ctx raw = .ok ev) :
    dlookup ev.meta k = Option.none ∧
    dlookup ev.meta (k ++ "_hash")
      = some (PyVal.str (ctx.hashText (pyStr v) ctx.salt)) := by
  have hd : ¬ d.isEmpty = true := by
    cases d with
    | nil => simp [dlookup] at hv
    | cons p rest => simp
  have htr : pyTruthy (PyVal.dict d) = true := by
    simp [pyTruthy, hd]
  have hm0 : dget raw "meta" (PyVal.dict []) = PyVal.dict d := by
    simp [dget, hmeta]
  -- reduce `normalize_event` to the meta pipeline on `d`
  unfold normalize_event at hok
  rw [hm0] at hok
  unfold normMeta at hok
  rw [if_pos htr] at hok
  simp only [dictOfVal] at hok
  cases hwt : windowTitleStep ctx (piiFold ctx PII_KEYS d) with
  | error e =>
    rw [hwt] at hok
    cases hok
  | ok md2 =>
    rw [hwt] at hok
    simp only [Except.ok.injEq] at hok
    have hev : ev.meta = md2.map (fun p => (p.1, truncVal p.2)) := by
      rw [← hok]
    obtain ⟨h1, h2⟩ := piiFold_hit_piikeys ctx d k v hk hv ht
    have hsep : (¬ k = "window_title") ∧ (¬ k = "window_title_hash")
        ∧ (¬ (k ++ "_hash") = "window_title")
        ∧ (¬ (k ++ "_hash") = "window_title_hash") := by
      simp only [PII_KEYS, List.mem_cons, List.not_mem_nil, or_false] at hk
      rcases hk with rfl | rfl | rfl | rfl | rfl <;> refine ⟨by decide, by decide, by decide, by decide⟩
    have hm2k : dlookup md2 k = Option.none :=
      (windowTitleStep_lookup_other ctx _ md2 k hwt hsep.1 hsep.2.1).trans h1
    have hm2kh : dlookup md2 (k ++ "_hash")
        = some (PyVal.str (ctx.hashText (pyStr v) ctx.salt)) :=
      (windowTitleStep_lookup_other ctx _ md2 (k ++ "_hash") hwt
        hsep.2.2.1 hsep.2.2.2).trans h2
    rw [hev]
    constructor
    · rw [dlookup_map_trunc, hm2k]
      rfl
    · rw [dlookup_map_trunc, hm2kh]
      rw [show (some (PyVal.str (ctx.hashText (pyStr v) ctx.salt))).map truncVal
          = some (truncVal (PyVal.str (ctx.hashText (pyStr v) ctx.salt))) from rfl]
      rw [show truncVal (PyVal.str (ctx.hashText (pyStr v) ctx.salt))
          = PyVal.str (ctx.hashText (pyStr v) ctx.salt) from by
        simp only [truncVal]
        rw [if_neg (not_lt.mpr hhash)]]

/-- Witness for C3: `meta = {'email': 'x@y'}` with the concrete
context normalizes to a meta with no `email` and with
`email_hash = '#x@y'`. -/
theorem C3_amended_witness :
    (normalize_event nctx0 [("meta", PyVal.dict [("email", PyVal.str "x@y")])]).toOption.map
        (fun ev => ((dlookup ev.meta "email").isSome, dlookup ev.meta "email_hash"))
      = some (false, some (PyVal.str "#x@y")) := by
  obtain ⟨ev, hok⟩ : ∃ ev,
      normalize_event nctx0 [("meta", PyVal.dict [("email", PyVal.str "x@y")])] = .ok ev :=
    ⟨_, rfl⟩
  have h := C3_amended nctx0 [("meta", PyVal.dict [("email", PyVal.str "x@y")])]
    [("email", PyVal.str "x@y")] "email" (PyVal.str "x@y") ev rfl (by decide) rfl
    (by decide) (by decide) hok
  rw [hok]
  have h2 := h.2
  rw [show ("email" ++ "_hash" : String) = "email_hash" from rfl] at h2
  show some ((dlookup ev.meta "email").isSome, dlookup ev.meta "email_hash")
    = some (false, some (PyVal.str "#x@y"))
  rw [h.1, h2]
  rfl

/-- **C9, counterexample.**  `normalize_event` is not total: a truthy
non-dict `meta` (here the integer 5) makes `dict(raw.get('meta', {})
or {})` raise `TypeError`, refuting "never raises on any raw input". -/
theorem C9_counterexample :
    normalize_event nctx0 [("meta", PyVal.int 5)] = .error () := by
  rfl

/-- **C9, amended.**  `normalize_event` returns a canonical event
(never raises) for every raw input whose `meta`, when present and
truthy, is a dict in which a truthy `window_title` value, if any, is a
string; a missing timestamp, a string timestamp that fails ISO-8601
parsing, or a timestamp of any other shape degrades to the current
time, and a parseable string or datetime timestamp is kept. -/
theorem C9_amended (ctx : NormCtx) (raw : List (String × PyVal))
    (hmeta : match dlookup raw "meta" with
      | Option.none => True
      | some v => pyTruthy v = false ∨ ∃ d, v = PyVal.dict d)
    (hwt : ∀ d v, dlookup raw "meta" = some (PyVal.dict d) →
      dlookup d "window_title" = some v → pyTruthy v = true →
      ∃ s, v = PyVal.str s) :
    ∃ ev, normalize_event ctx raw = .ok ev ∧
      ev.timestamp = normTimestamp ctx (dget raw "timestamp" PyVal.none) ∧
      (∀ s, dget raw "timestamp" PyVal.none = PyVal.str s → ctx.parseIso s = Option.none →
        ev.timestamp = ctx.now) ∧
      (∀ s t, dget raw "timestamp" PyVal.none = PyVal.str s → ctx.parseIso s = some t →
        ev.timestamp = t) ∧
      (∀ t, dget raw "timestamp" PyVal.none = PyVal.dt t → ev.timestamp = t) ∧
      (dget raw "timestamp" PyVal.none = PyVal.none → ev.timestamp = ctx.now) := by
  have main : ∃ md3, normMeta ctx (dget raw "meta" (PyVal.dict [])) = .ok md3 := by
    cases hm : dlookup raw "meta" with
    | none =>
      have hm0 : dget raw "meta" (PyVal.dict []) = PyVal.dict [] := by
        simp [dget, hm]
      rw [hm0]
      exact ⟨_, rfl⟩
    | some mv =>
      rw [hm] at hmeta
      have hm0 : dget raw "meta" (PyVal.dict []) = mv := by
        simp [dget, hm]
      rw [hm0]
      rcases hmeta with hfal | ⟨d, rfl⟩
      · unfold normMeta
        rw [if_neg (by rw [hfal]; exact Bool.false_ne_true)]
        exact ⟨_, rfl⟩
      · by_cases hde : d.isEmpty = true
        · unfold normMeta
          rw [if_neg (by simp [pyTruthy, hde])]
          exact ⟨_, rfl⟩
        · have htr : pyTruthy (PyVal.dict d) = true := by simp [pyTruthy, hde]
          have hwtc : ∀ v, dlookup (piiFold ctx PII_KEYS d) "window_title" = some v →
              pyTruthy v = true → ∃ s, v = PyVal.str s := by
            intro v hv ht
            rw [piiFold_window_title] at hv
            exact hwt d v hm hv ht
          obtain ⟨md2, hmd2⟩ := windowTitleStep_ok ctx (piiFold ctx PII_KEYS d) hwtc
          unfold normMeta
          rw [if_pos htr]
          simp only [dictOfVal]
          rw [hmd2]
          exact ⟨_, rfl⟩
  obtain ⟨md3, hmd3⟩ := main
  refine ⟨{ user_id := dget raw "user_id" PyVal.none
            event_id := dget raw "event_id" PyVal.none
            timestamp := normTimestamp ctx (dget raw "timestamp" PyVal.none)
            type := dget raw "type" PyVal.none
            meta := md3 }, ?_, rfl, ?_, ?_, ?_, ?_⟩
  · unfold normalize_event
    rw [hmd3]
  · intro s hs hp
    simp [normTimestamp, hs, hp]
  · intro s t hs hp
    simp [normTimestamp, hs, hp]
  · intro t hs
    simp [normTimestamp, hs]
  · intro hs
    simp [normTimestamp, hs]

/-- Witness for C9: an unparsable string timestamp with a harmless
meta dict normalizes successfully, with the timestamp degraded to the
current time (`0` in the concrete context). -/
theorem C9_amended_witness :
    (normalize_event nctx0
        [("timestamp", PyVal.str "garbage"), ("meta", PyVal.dict [("x", PyVal.str "1")])]).map
      NormEvent.timestamp = .ok 0 := by
  obtain ⟨ev, hok, hts, _⟩ := C9_amended nctx0
    [("timestamp", PyVal.str "garbage"), ("meta", PyVal.dict [("x", PyVal.str "1")])]
    (Or.inr ⟨[("x", PyVal.str "1")], rfl⟩)
    (by
      intro d v hd hw ht
      have hd' : PyVal.dict [("x", PyVal.str "1")] = PyVal.dict d := Option.some.inj hd
      have hdd : d = [("x", PyVal.str "1")] := by
        cases hd'
        rfl
      rw [hdd] at hw
      rw [show dlookup [("x", PyVal.str "1")] "window_title" = Option.none from rfl] at hw
      cases hw)
  rw [hok]
  simp only [Except.map]
  rw [hts]
  rfl

end SilentKiller
